import Mathlib

/-!
Formal model of the Prism feed viewer core (viewer.js and the reading-stats
tracker), shallowly embedded in Lean.

Strings are modelled as `List Char` (JavaScript strings, one entry per UTF-16
code unit in the ASCII range relevant here).  The browser DOM is modelled by
the inductive type `Node`; `DOMParser.parseFromString` is a platform API, so
functions that parse HTML take an already-parsed node list (equivalently, the
theorems quantify over every possible parser output), and the string-level
`sanitizeHtml` takes the parser as an explicit function argument.  Parsed
tag and attribute names are assumed already lower-cased, as the HTML parser
produces them.
-/

/-- Strings as lists of characters (JavaScript string model). -/
abbrev Str := List Char

/-- Whitespace characters recognised by JavaScript `String.prototype.trim`
(the ASCII subset: space, tab, line feed, carriage return, vertical tab,
form feed). -/
def jsWhitespace : List Char := [' ', '\t', '\n', '\r', '\x0b', '\x0c']

/-- Test for a JavaScript whitespace character. -/
def isJsSpace (c : Char) : Bool := c ∈ jsWhitespace

/-- Drop leading JavaScript whitespace. -/
def jsTrimLeft : Str → Str
  | [] => []
  | c :: cs => if isJsSpace c then jsTrimLeft cs else c :: cs

/-- Model of JavaScript `String.prototype.trim`: strip whitespace from both
ends. -/
def jsTrim (s : Str) : Str := (jsTrimLeft (jsTrimLeft s).reverse).reverse

/-- Model of JavaScript `String.prototype.toLowerCase` on the ASCII range. -/
def jsToLower (s : Str) : Str := s.map Char.toLower

/-- Model of JavaScript `a.startsWith(p)`. -/
def jsStartsWith (p s : Str) : Bool := p.isPrefixOf s

/-- Model of a parsed DOM node: an element with a tag name, an attribute
list (name-value pairs, in document order) and children, or a text node. -/
inductive Node where
  | elem (tag : Str) (attrs : List (Str × Str)) (children : List Node)
  | text (s : Str)

/-- The denylist of dangerous tags removed by `sanitizeHtml`
(`badTags` in viewer.js). -/
def badTags : List Str :=
  ["script".toList, "iframe".toList, "object".toList, "embed".toList,
   "form".toList, "base".toList, "head".toList, "meta".toList, "link".toList]

/-- The attribute test of `sanitizeHtml`: the name starts with `on`, or the
value, trimmed and lower-cased, starts with `javascript:` or `data:`. -/
def isBadAttr (a : Str × Str) : Bool :=
  jsStartsWith "on".toList a.1 ||
  jsStartsWith "javascript:".toList (jsToLower (jsTrim a.2)) ||
  jsStartsWith "data:".toList (jsToLower (jsTrim a.2))

/-- First pass of `sanitizeHtml`: remove the entire subtree rooted at any
element whose tag is in `badTags` (the `querySelectorAll(tag).remove()`
loop). -/
def removeBad : List Node → List Node
  | [] => []
  | .text s :: rest => .text s :: removeBad rest
  | .elem t a c :: rest =>
      if t ∈ badTags then removeBad rest
      else .elem t a (removeBad c) :: removeBad rest

/-- Second pass of `sanitizeHtml`: for every remaining element, drop every
attribute matching `isBadAttr` (the `removeAttribute` loop). -/
def stripAttrs : List Node → List Node
  | [] => []
  | .text s :: rest => .text s :: stripAttrs rest
  | .elem t a c :: rest =>
      .elem t (a.filter (fun p => !isBadAttr p)) (stripAttrs c) :: stripAttrs rest

/-- The document transformation performed by `sanitizeHtml` between parsing
and serialisation: tag removal, then attribute stripping. -/
def sanitizeDoc (d : List Node) : List Node := stripAttrs (removeBad d)

/-- Serialisation of a text node for `innerHTML` (the browser escapes `&`,
`<` and `>` in text content). -/
def serText : Str → Str
  | [] => []
  | c :: cs =>
      (if c = '&' then "&amp;".toList
       else if c = '<' then "&lt;".toList
       else if c = '>' then "&gt;".toList
       else [c]) ++ serText cs

/-- Serialisation of an attribute value for `innerHTML` (the browser escapes
`&` and `"` in attribute values). -/
def serAttrVal : Str → Str
  | [] => []
  | c :: cs =>
      (if c = '&' then "&amp;".toList
       else if c = '"' then "&quot;".toList
       else [c]) ++ serAttrVal cs

/-- Serialisation of an attribute list for `innerHTML`. -/
def serAttrs : List (Str × Str) → Str
  | [] => []
  | (n, v) :: rest => ' ' :: (n ++ '=' :: '"' :: serAttrVal v ++ ['"']) ++ serAttrs rest

/-- Model of `Element.innerHTML` serialisation of a node list. -/
def serializeNodes : List Node → Str
  | [] => []
  | .text s :: rest => serText s ++ serializeNodes rest
  | .elem t a c :: rest =>
      '<' :: (t ++ serAttrs a ++ ['>']) ++ serializeNodes c ++
      ('<' :: '/' :: t ++ ['>']) ++ serializeNodes rest

/-- Model of viewer.js `sanitizeHtml` at the string level.  `parse` stands
for the platform `DOMParser.parseFromString(html, "text/html")` (returning
the body children); `none` models a `null`/`undefined` argument.  The source
returns `""` for any falsy argument and otherwise parses, removes bad tags,
strips bad attributes and returns `doc.body.innerHTML`. -/
def sanitizeHtml (parse : Str → List Node) (html : Option Str) : Str :=
  match html with
  | none => []
  | some s => if s = [] then [] else serializeNodes (sanitizeDoc (parse s))

/-- Global replacement of the single character `c` by the string `r`, the
model of `String.prototype.replace(/c/g, r)` for a one-character pattern. -/
def replaceAllChar (c : Char) (r : Str) : Str → Str
  | [] => []
  | x :: xs => (if x = c then r else [x]) ++ replaceAllChar c r xs

/-- Model of viewer.js `escapeHtml` on a string: the chain of five global
replacements, `&` first, then `<`, `>`, `"`, `'`. -/
def escapeHtml (s : Str) : Str :=
  replaceAllChar '\'' "&#039;".toList
    (replaceAllChar '"' "&quot;".toList
      (replaceAllChar '>' "&gt;".toList
        (replaceAllChar '<' "&lt;".toList
          (replaceAllChar '&' "&amp;".toList s))))

/-- Model of the `(unsafe || "")` coercion at the entry of `escapeHtml`:
`none` models `null`/`undefined`. -/
def escapeHtmlJS (v : Option Str) : Str :=
  escapeHtml (match v with | none => [] | some s => s)

/-- Per-character view of `escapeHtml`, used to reason about the chain of
replacements. -/
def escapeHtmlChar (c : Char) : Str :=
  if c = '&' then "&amp;".toList
  else if c = '<' then "&lt;".toList
  else if c = '>' then "&gt;".toList
  else if c = '"' then "&quot;".toList
  else if c = '\'' then "&#039;".toList
  else [c]

/-- Predicate on documents: no element anywhere has a denylisted tag, and no
element anywhere carries an attribute matching `isBadAttr`. -/
def cleanDoc : List Node → Prop
  | [] => True
  | .text _ :: rest => cleanDoc rest
  | .elem t a c :: rest =>
      t ∉ badTags ∧ (∀ p ∈ a, isBadAttr p = false) ∧ cleanDoc c ∧ cleanDoc rest

/-- Predicate on documents: no element anywhere has a denylisted tag. -/
def noBadTags : List Node → Prop
  | [] => True
  | .text _ :: rest => noBadTags rest
  | .elem t _ c :: rest => t ∉ badTags ∧ noBadTags c ∧ noBadTags rest

/-- Text contents of a document, in document order. -/
def collectTexts : List Node → List Str
  | [] => []
  | .text s :: rest => s :: collectTexts rest
  | .elem _ _ c :: rest => collectTexts c ++ collectTexts rest

/-- Text contents of a document, skipping every subtree rooted at a
denylisted tag: the texts that a correct sanitizer must keep. -/
def collectTextsSafe : List Node → List Str
  | [] => []
  | .text s :: rest => s :: collectTextsSafe rest
  | .elem t _ c :: rest =>
      (if t ∈ badTags then [] else collectTextsSafe c) ++ collectTextsSafe rest

/-- The five entities that `escapeHtml` emits. -/
def htmlEntities : List Str :=
  ["&amp;".toList, "&lt;".toList, "&gt;".toList, "&quot;".toList, "&#039;".toList]

/-- Check that every ampersand in the string starts one of the five emitted
entities. -/
def ampOk : Str → Bool
  | [] => true
  | c :: rest =>
      (if c = '&' then htmlEntities.any (fun e => e.isPrefixOf (c :: rest)) else true)
      && ampOk rest

/-- Longest leading run of non-whitespace characters and the remainder: the
greedy match of the regex fragment `[^\s]+`. -/
def takeUrl : Str → Str × Str
  | [] => ([], [])
  | c :: cs =>
      if isJsSpace c then ([], c :: cs)
      else ((takeUrl cs).1.cons c, (takeUrl cs).2)

/-- Match of `https?:\/\/[^\s]+` whose scheme part has length `k`: the URL
needs at least one non-whitespace character after the scheme. -/
def matchUrlFrom (k : Nat) (l : Str) : Option (Str × Str) :=
  if (takeUrl (l.drop k)).1 = [] then none
  else some (l.take k ++ (takeUrl (l.drop k)).1, (takeUrl (l.drop k)).2)

/-- Leftmost match of the viewer.js URL regex `(https?:\/\/[^\s]+)` at the
start of `l`: a `http://` or `https://` scheme followed by a maximal
non-empty run of non-whitespace characters. -/
def matchUrlAt (l : Str) : Option (Str × Str) :=
  if jsStartsWith "https://".toList l then matchUrlFrom 8 l
  else if jsStartsWith "http://".toList l then matchUrlFrom 7 l
  else none

/-- Model of viewer.js `formatValue`: `(text || "").replace(urlRegex, url =>
anchor)` where the replacement wraps `escapeHtml(url)` in an `<a>` tag, with
`anchor` below.  The scan walks the text left to right; at each position a
regex match consumes the URL, every other character is copied to the output
unchanged — only the matched URLs pass through `escapeHtml`. -/
def anchor (u : Str) : Str :=
  "<a href=\"".toList ++ u ++ "\" target=\"_blank\">".toList ++ u ++ "</a>".toList

def formatValue : Str → Str
  | [] => []
  | c :: cs =>
      match h : matchUrlAt (c :: cs) with
      | some (url, rest) => anchor (escapeHtml url) ++ formatValue rest
      | none => c :: formatValue cs
termination_by l => l.length
decreasing_by
  · have hta : ∀ l : Str, (takeUrl l).1 ++ (takeUrl l).2 = l := by
      intro l
      induction l with
      | nil => rfl
      | cons x xs ih =>
          by_cases hx : isJsSpace x
          · simp [takeUrl, hx]
          · simp [takeUrl, hx, ih]
    have hfrom : ∀ k : Nat, matchUrlFrom k (c :: cs) = some (url, rest) →
        url ++ rest = c :: cs ∧ url ≠ [] := by
      intro k hk
      by_cases he : (takeUrl ((c :: cs).drop k)).1 = []
      · simp [matchUrlFrom, he] at hk
      · simp only [matchUrlFrom, if_neg he, Option.some.injEq, Prod.mk.injEq] at hk
        obtain ⟨hu, hr⟩ := hk
        constructor
        · rw [← hu, ← hr, List.append_assoc, hta, List.take_append_drop]
        · intro habs
          rw [← hu] at habs
          exact he (List.append_eq_nil.mp habs).2
    have hsound : url ++ rest = c :: cs ∧ url ≠ [] := by
      unfold matchUrlAt at h
      split at h
      · exact hfrom 8 h
      · split at h
        · exact hfrom 7 h
        · exact absurd h (by simp)
    have hlen : url.length + rest.length = (c :: cs).length := by
      rw [← hsound.1, List.length_append]
    have hp : 0 < url.length := List.length_pos.mpr hsound.2
    simp only [List.length_cons] at hlen ⊢
    omega
  · simp

/-- Lookup of an attribute value, the model of `getAttribute` (`none` models
the `null` return for a missing attribute). -/
def getAttr (a : List (Str × Str)) (n : Str) : Option Str :=
  (a.find? (fun p => p.1 = n)).map (fun p => p.2)

/-- Attributes of the first `img` element in document order, the model of
`querySelector("img")`. -/
def findFirstImg : List Node → Option (List (Str × Str))
  | [] => none
  | .text _ :: rest => findFirstImg rest
  | .elem t a c :: rest =>
      if t = "img".toList then some a
      else
        match findFirstImg c with
        | some r => some r
        | none => findFirstImg rest

/-- Model of viewer.js `extractImage`: parse the HTML (the argument is the
parsed document), take the first `img`, return its `src` (the DOM `src`
property reads as the empty string when the attribute is missing; URL
resolution by the platform is modelled as the identity), or `null` when
there is no `img` element. -/
def extractImage (d : List Node) : Option Str :=
  match findFirstImg d with
  | none => none
  | some a => some ((getAttr a "src".toList).getD [])

/-- JavaScript truthiness of the `itemImage` variable, which ranges over
`null` and strings: `null` and the empty string are falsy. -/
def truthyS : Option Str → Bool
  | none => false
  | some s => !s.isEmpty

/-- Per-item inputs of the image fallback chain in `renderSmartFeed`:
the parsed description HTML, the `type` and `url` attributes of the first
`enclosure` (if any), the `medium` and `url` attributes of every element
with local name `content` (the `getElementsByTagNameNS("*", "content")`
list), and the `url` attributes of every element with local name
`thumbnail`. -/
structure ItemData where
  desc : List Node
  enclosure : Option (Option Str × Option Str)
  mediaContents : List (Option Str × Option Str)
  mediaThumbnails : List (Option Str)

/-- First element of the `media:content` list whose `medium` attribute is
exactly `image` (the `for` loop with `break` in `renderSmartFeed`). -/
def findMediumImage (ms : List (Option Str × Option Str)) :
    Option (Option Str × Option Str) :=
  ms.find? (fun m => m.1 = some "image".toList)

/-- Test of the `enclosure` source: the `type` attribute exists and starts
with `image` (the optional-chaining `getAttribute("type")?.startsWith`). -/
def enclosureTypeIsImage : Option Str → Bool
  | some t => jsStartsWith "image".toList t
  | none => false

/-- Model of the image resolution in `renderSmartFeed`: start from
`extractImage` on the description; if that is falsy, try the `enclosure`
whose `type` starts with `image`, then unconditionally overwrite with the
first `media:content` having `medium="image"` (this loop is not guarded by
a truthiness test of the current value), and finally use the first
`media:thumbnail` only when the value is still falsy. -/
def resolveImage (it : ItemData) : Option Str :=
  let img0 := extractImage it.desc
  if truthyS img0 then img0
  else
    let img1 :=
      match it.enclosure with
      | some enc => if enclosureTypeIsImage enc.1 then enc.2 else img0
      | none => img0
    let img2 :=
      match findMediumImage it.mediaContents with
      | some m => m.2
      | none => img1
    match it.mediaThumbnails with
    | u :: _ => if truthyS img2 then img2 else u
    | [] => img2

/-- Concatenated text content of a document in order, the model of the DOM
`textContent` property. -/
def textContent : List Node → Str
  | [] => []
  | .text s :: rest => s ++ textContent rest
  | .elem _ _ c :: rest => textContent c ++ textContent rest

/-- Model of the text summary in `renderSmartFeed`: the plain text of the
parsed description (the argument is the parsed document), sliced by
`substring(0, 150)`, with an ellipsis appended exactly when the raw text is
longer than 150 characters. -/
def textSummaryOf (d : List Node) : Str :=
  (textContent d).take 150 ++
    (if 150 < (textContent d).length then "...".toList else [])

/-- Model of the `readingStats` record in viewer.js.  Calendar days (the
`toDateString` values) are modelled as integers: `toDateString` is injective
per calendar day and `yesterday` is `today - 1`.  `history` is a list of
(date, count) pairs in insertion order. -/
structure ReadingStats where
  totalArticles : Int
  totalTime : Int
  streak : Int
  lastReadDate : Option Int
  history : List (Int × Int)

/-- The zero-value baseline stats object of `getReadingStats`. -/
def baselineStats : ReadingStats :=
  { totalArticles := 0, totalTime := 0, streak := 0, lastReadDate := none, history := [] }

/-- Increment the count of the first history entry with the given date (the
`histEntry.count++` mutation after `history.find`). -/
def incFirst : List (Int × Int) → Int → List (Int × Int)
  | [], _ => []
  | e :: t, d => if e.1 = d then (e.1, e.2 + 1) :: t else e :: incFirst t d

/-- Model of viewer.js `trackArticleRead` on a well-formed stats object:
increment `totalArticles`; update the streak from `lastReadDate` (absent →
1, yesterday → +1, today → unchanged, anything else → 1); set
`lastReadDate` to today; then update the history (increment todays entry or
append a fresh one, shifting the front when the length exceeds 30). -/
def trackArticleRead (stats : ReadingStats) (today : Int) : ReadingStats :=
  let s1 := { stats with totalArticles := stats.totalArticles + 1 }
  let s2 :=
    match s1.lastReadDate with
    | some last =>
        if last = today - 1 then { s1 with streak := s1.streak + 1 }
        else if last ≠ today then { s1 with streak := 1 }
        else s1
    | none => { s1 with streak := 1 }
  let s3 := { s2 with lastReadDate := some today }
  match s3.history.find? (fun e => e.1 = today) with
  | some _ => { s3 with history := incFirst s3.history today }
  | none =>
      let h := s3.history ++ [(today, 1)]
      { s3 with history := if 30 < h.length then h.tail else h }

/-- The streak value after one `trackArticleRead` step, written as a direct
case split. -/
def streakAfter (stats : ReadingStats) (today : Int) : Int :=
  match stats.lastReadDate with
  | none => 1
  | some last =>
      if last = today - 1 then stats.streak + 1
      else if last ≠ today then 1
      else stats.streak

/-- The history value after one `trackArticleRead` step, written as a direct
case split. -/
def historyAfter (h : List (Int × Int)) (today : Int) : List (Int × Int) :=
  match h.find? (fun e => e.1 = today) with
  | some _ => incFirst h today
  | none =>
      let h2 := h ++ [(today, 1)]
      if 30 < h2.length then h2.tail else h2

/-- Dynamic JavaScript values, used to settle the stats-corruption claim:
the persisted `readingStats` value can have any shape.  Calendar-day
strings are modelled as `vNum` of the day index (as in `ReadingStats`);
`vNaN` is the result of arithmetic on non-numeric values. -/
inductive JSVal where
  | vNull
  | vUndefined
  | vBool (b : Bool)
  | vNum (n : Int)
  | vNaN
  | vStr (s : Str)
  | vArr (xs : List JSVal)
  | vObj (fs : List (Str × JSVal))

/-- JavaScript truthiness: `null`, `undefined`, `false`, `0`, `NaN` and the
empty string are falsy; every object and array is truthy. -/
def jsTruthy : JSVal → Bool
  | .vNull => false
  | .vUndefined => false
  | .vBool b => b
  | .vNum n => !(n == 0)
  | .vNaN => false
  | .vStr s => !s.isEmpty
  | .vArr _ => true
  | .vObj _ => true

/-- Property read `v.k`: a field of an object, `undefined` when missing or
when the base is a primitive (boxing).  The bases passed below are never
`null`/`undefined` at a read, so the throwing case does not arise here. -/
def getField (v : JSVal) (k : Str) : JSVal :=
  match v with
  | .vObj fs =>
      match fs.find? (fun f => f.1 = k) with
      | some f => f.2
      | none => .vUndefined
  | _ => .vUndefined

/-- Field update used by `setField`: replace the first binding of the key
or append a new one. -/
def setFields (fs : List (Str × JSVal)) (k : Str) (x : JSVal) : List (Str × JSVal) :=
  match fs with
  | [] => [(k, x)]
  | f :: t => if f.1 = k then (k, x) :: t else f :: setFields t k x

/-- Property write `v.k = x`: updates an object in place; a write to a
primitive is silently discarded (non-strict mode). -/
def setField (v : JSVal) (k : Str) (x : JSVal) : JSVal :=
  match v with
  | .vObj fs => .vObj (setFields fs k x)
  | other => other

/-- The `++` increment: numbers increment, anything non-numeric becomes
`NaN` (exact for the `undefined` and object fields that arise here; numeric
string coercion is not exercised by any theorem below). -/
def jsInc : JSVal → JSVal
  | .vNum n => .vNum (n + 1)
  | _ => .vNaN

/-- Day denoted by a stored `lastReadDate` value under `new Date(...)`:
`vNum d` parses back to day `d`; anything else is an invalid date, whose
`toDateString` compares unequal to any real day string. -/
def jsDateDay : JSVal → Option Int
  | .vNum n => some n
  | _ => none

/-- Strict equality `v === today-string`, where day strings are modelled by
their day index. -/
def isNumEq (v : JSVal) (n : Int) : Bool :=
  match v with
  | .vNum m => m == n
  | _ => false

/-- The `history.find(h => h.date === today)` scan: touching a property of
a `null`/`undefined` element throws a TypeError; otherwise the first
element whose `date` field is todays day string is returned. -/
def jsFindDate : List JSVal → Int → Except Str (Option JSVal)
  | [], _ => .ok none
  | e :: t, today =>
      match e with
      | .vNull => .error "TypeError".toList
      | .vUndefined => .error "TypeError".toList
      | _ =>
          if isNumEq (getField e "date".toList) today then .ok (some e)
          else jsFindDate t today

/-- The in-place `histEntry.count++` on the first matching entry. -/
def jsIncDateCount : List JSVal → Int → List JSVal
  | [], _ => []
  | e :: t, today =>
      if isNumEq (getField e "date".toList) today then
        setField e "count".toList (jsInc (getField e "count".toList)) :: t
      else e :: jsIncDateCount t today

/-- History update of `trackArticleRead` on a dynamic array value:
increment the found entry, or push `{date, count: 1}` and shift the front
when the length exceeds 30. -/
def trackHistoryJS (h : List JSVal) (today : Int) : Except Str (List JSVal) :=
  match jsFindDate h today with
  | .error e => .error e
  | .ok (some _) => .ok (jsIncDateCount h today)
  | .ok none =>
      let h2 := h ++ [.vObj [("date".toList, .vNum today), ("count".toList, .vNum 1)]]
      .ok (if 30 < h2.length then h2.tail else h2)

/-- The zero-value baseline object of `getReadingStats`. -/
def baselineJS : JSVal :=
  .vObj [("totalArticles".toList, .vNum 0), ("totalTime".toList, .vNum 0),
         ("streak".toList, .vNum 0), ("lastReadDate".toList, .vNull),
         ("history".toList, .vArr [])]

/-- Model of viewer.js `getReadingStats`: `data.readingStats || baseline` —
any falsy stored value is replaced by the baseline, any truthy value (of
whatever shape) is returned as is. -/
def getReadingStatsJS (stored : JSVal) : JSVal :=
  if jsTruthy stored then stored else baselineJS

/-- Model of viewer.js `trackArticleRead` on a dynamic stored value:
`getReadingStats`, `totalArticles++`, the streak branch, `lastReadDate =
today`, then the history update — which throws a TypeError when
`stats.history` is not an array (`.find` is not a function). -/
def trackArticleReadJS (stored : JSVal) (today : Int) : Except Str JSVal :=
  let stats0 := getReadingStatsJS stored
  let stats1 := setField stats0 "totalArticles".toList
    (jsInc (getField stats0 "totalArticles".toList))
  let stats2 :=
    if jsTruthy (getField stats1 "lastReadDate".toList) then
      if jsDateDay (getField stats1 "lastReadDate".toList) = some (today - 1) then
        setField stats1 "streak".toList (jsInc (getField stats1 "streak".toList))
      else if jsDateDay (getField stats1 "lastReadDate".toList) ≠ some today then
        setField stats1 "streak".toList (.vNum 1)
      else stats1
    else setField stats1 "streak".toList (.vNum 1)
  let stats3 := setField stats2 "lastReadDate".toList (.vNum today)
  match getField stats3 "history".toList with
  | .vArr h =>
      match trackHistoryJS h today with
      | .ok h2 => .ok (setField stats3 "history".toList (.vArr h2))
      | .error e => .error e
  | _ => .error "TypeError".toList

/-- Concrete stand-in parser used to witness the round-trip hypothesis of
the idempotence theorem: it reads the two-character document `hi` back to a
single text node and everything else to the empty document. -/
def parseStub : Str → List Node :=
  fun l => if l = "hi".toList then [Node.text "hi".toList] else []

theorem replaceAllChar_append (c : Char) (r : Str) (a b : Str) :
    replaceAllChar c r (a ++ b) = replaceAllChar c r a ++ replaceAllChar c r b := by
  induction a with
  | nil => simp [replaceAllChar]
  | cons x xs ih => simp [replaceAllChar, ih]

theorem escapeHtml_cons (x : Char) (xs : Str) :
    escapeHtml (x :: xs) = escapeHtmlChar x ++ escapeHtml xs := by
  by_cases h1 : x = '&'
  · subst h1; simp [escapeHtml, escapeHtmlChar, replaceAllChar, replaceAllChar_append]
  · by_cases h2 : x = '<'
    · subst h2; simp [escapeHtml, escapeHtmlChar, replaceAllChar, replaceAllChar_append]
    · by_cases h3 : x = '>'
      · subst h3; simp [escapeHtml, escapeHtmlChar, replaceAllChar, replaceAllChar_append]
      · by_cases h4 : x = '"'
        · subst h4; simp [escapeHtml, escapeHtmlChar, replaceAllChar, replaceAllChar_append]
        · by_cases h5 : x = '\''
          · subst h5; simp [escapeHtml, escapeHtmlChar, replaceAllChar, replaceAllChar_append]
          · simp [escapeHtml, escapeHtmlChar, replaceAllChar, replaceAllChar_append,
              h1, h2, h3, h4, h5]

theorem noBadTags_removeBad (d : List Node) : noBadTags (removeBad d) := by
  induction d using removeBad.induct with
  | case1 => simp [removeBad, noBadTags]
  | case2 s rest ih => simpa [removeBad, noBadTags] using ih
  | case3 t a c rest h ih => simpa [removeBad, h] using ih
  | case4 t a c rest h ihc ih =>
      simp only [removeBad, if_neg h, noBadTags]
      exact ⟨h, ihc, ih⟩

theorem cleanDoc_stripAttrs (d : List Node) (hd : noBadTags d) :
    cleanDoc (stripAttrs d) := by
  induction d using stripAttrs.induct with
  | case1 => simp [stripAttrs, cleanDoc]
  | case2 s rest ih =>
      simp only [noBadTags] at hd
      simpa [stripAttrs, cleanDoc] using ih hd
  | case3 t a c rest ihc ih =>
      simp only [noBadTags] at hd
      simp only [stripAttrs, cleanDoc]
      refine ⟨hd.1, ?_, ihc hd.2.1, ih hd.2.2⟩
      intro p hp
      simp only [List.mem_filter, Bool.not_eq_true'] at hp
      exact hp.2

theorem collectTexts_stripAttrs (d : List Node) :
    collectTexts (stripAttrs d) = collectTexts d := by
  induction d using stripAttrs.induct with
  | case1 => simp [stripAttrs, collectTexts]
  | case2 s rest ih => simp [stripAttrs, collectTexts, ih]
  | case3 t a c rest ihc ih => simp [stripAttrs, collectTexts, ihc, ih]

theorem collectTexts_removeBad (d : List Node) :
    collectTexts (removeBad d) = collectTextsSafe d := by
  induction d using removeBad.induct with
  | case1 => simp [removeBad, collectTexts, collectTextsSafe]
  | case2 s rest ih => simp [removeBad, collectTexts, collectTextsSafe, ih]
  | case3 t a c rest h ih => simp [removeBad, collectTexts, collectTextsSafe, h, ih]
  | case4 t a c rest h ihc ih => simp [removeBad, collectTexts, collectTextsSafe, h, ihc, ih]

/-- C1: for every parsed input document, the sanitized document produced by
`sanitizeHtml` (modelled by `sanitizeDoc`, the transformation between the
parse and the `innerHTML` serialisation) contains no element with a tag in
the denylist `badTags`, no remaining element carries an attribute whose name
begins with `on` or whose trimmed, lower-cased value begins with
`javascript:` or `data:`, and the surviving text content is exactly the text
content outside denylisted subtrees — so the text of a removed `script`
element does not appear in the output.  Quantifying over every document
covers every possible output of the platform HTML parser on every input
string. -/
theorem C1_sanitizeHtml_removes_dangerous (d : List Node) :
    cleanDoc (sanitizeDoc d) ∧ collectTexts (sanitizeDoc d) = collectTextsSafe d := by
  constructor
  · exact cleanDoc_stripAttrs _ (noBadTags_removeBad d)
  · rw [sanitizeDoc, collectTexts_stripAttrs, collectTexts_removeBad]

theorem removeBad_idem (d : List Node) : removeBad (removeBad d) = removeBad d := by
  induction d using removeBad.induct with
  | case1 => simp [removeBad]
  | case2 s rest ih => simp [removeBad, ih]
  | case3 t a c rest h ih => simp [removeBad, h, ih]
  | case4 t a c rest h ihc ih => simp [removeBad, h, ihc, ih]

theorem stripAttrs_idem (d : List Node) : stripAttrs (stripAttrs d) = stripAttrs d := by
  induction d using stripAttrs.induct with
  | case1 => simp [stripAttrs]
  | case2 s rest ih => simp [stripAttrs, ih]
  | case3 t a c rest ihc ih =>
      simp [stripAttrs, ihc, ih, List.filter_filter]

theorem removeBad_stripAttrs_comm (d : List Node) :
    removeBad (stripAttrs d) = stripAttrs (removeBad d) := by
  induction d using stripAttrs.induct with
  | case1 => simp [stripAttrs, removeBad]
  | case2 s rest ih => simp [stripAttrs, removeBad, ih]
  | case3 t a c rest ihc ih =>
      by_cases h : t ∈ badTags
      · simp [stripAttrs, removeBad, h, ih]
      · simp [stripAttrs, removeBad, h, ihc, ih]

theorem sanitizeDoc_idem (d : List Node) : sanitizeDoc (sanitizeDoc d) = sanitizeDoc d := by
  simp [sanitizeDoc, removeBad_stripAttrs_comm, removeBad_idem, stripAttrs_idem]

/-- C3: the sanitizer is idempotent.  At the document level this is
unconditional: `sanitizeDoc (sanitizeDoc d) = sanitizeDoc d`.  At the string
level, `sanitizeHtml` re-parses its own serialised output with the platform
parser; for any parser that reads the serialised sanitized document back to
that document (the round-trip hypothesis `h`), a second `sanitizeHtml` pass
changes nothing. -/
theorem C3_sanitizeHtml_idempotent (parse : Str → List Node) (s : Str)
    (h : parse (serializeNodes (sanitizeDoc (parse s))) = sanitizeDoc (parse s)) :
    sanitizeHtml parse (some (sanitizeHtml parse (some s))) = sanitizeHtml parse (some s) := by
  by_cases hs : s = []
  · simp [sanitizeHtml, hs]
  · simp only [sanitizeHtml, if_neg hs]
    by_cases hout : serializeNodes (sanitizeDoc (parse s)) = []
    · simp [hout]
    · simp [hout, h, sanitizeDoc_idem]

theorem escapeHtmlChar_block (c : Char) :
    '<' ∉ escapeHtmlChar c ∧ '>' ∉ escapeHtmlChar c ∧ '"' ∉ escapeHtmlChar c ∧
    ∀ r, ampOk (escapeHtmlChar c ++ r) = ampOk r := by
  by_cases h1 : c = '&'
  · subst h1
    refine ⟨by decide, by decide, by decide, fun r => ?_⟩
    simp [escapeHtmlChar, ampOk, htmlEntities, List.isPrefixOf]
  · by_cases h2 : c = '<'
    · subst h2
      refine ⟨by decide, by decide, by decide, fun r => ?_⟩
      simp [escapeHtmlChar, ampOk, htmlEntities, List.isPrefixOf]
    · by_cases h3 : c = '>'
      · subst h3
        refine ⟨by decide, by decide, by decide, fun r => ?_⟩
        simp [escapeHtmlChar, ampOk, htmlEntities, List.isPrefixOf]
      · by_cases h4 : c = '"'
        · subst h4
          refine ⟨by decide, by decide, by decide, fun r => ?_⟩
          simp [escapeHtmlChar, ampOk, htmlEntities, List.isPrefixOf]
        · by_cases h5 : c = '\''
          · subst h5
            refine ⟨by decide, by decide, by decide, fun r => ?_⟩
            simp [escapeHtmlChar, ampOk, htmlEntities, List.isPrefixOf]
          · have he : escapeHtmlChar c = [c] := by
              simp [escapeHtmlChar, h1, h2, h3, h4, h5]
            refine ⟨?_, ?_, ?_, fun r => ?_⟩
            · simp [he]; exact fun h => h2 h.symm
            · simp [he]; exact fun h => h3 h.symm
            · simp [he]; exact fun h => h4 h.symm
            · simp [he, ampOk, h1]

/-- C4: for every string, the output of `escapeHtml` contains no literal
`<`, `>` or `"`, and every `&` in it starts one of the emitted entities
`&amp;`, `&lt;`, `&gt;`, `&quot;`, `&#039;`. -/
theorem C4_escapeHtml_output_safe (s : Str) :
    '<' ∉ escapeHtml s ∧ '>' ∉ escapeHtml s ∧ '"' ∉ escapeHtml s ∧
    ampOk (escapeHtml s) = true := by
  induction s with
  | nil => exact ⟨by decide, by decide, by decide, rfl⟩
  | cons x xs ih =>
      rw [escapeHtml_cons]
      obtain ⟨b1, b2, b3, b4⟩ := escapeHtmlChar_block x
      obtain ⟨i1, i2, i3, i4⟩ := ih
      refine ⟨?_, ?_, ?_, ?_⟩
      · intro h; rcases List.mem_append.mp h with h | h
        · exact b1 h
        · exact i1 h
      · intro h; rcases List.mem_append.mp h with h | h
        · exact b2 h
        · exact i2 h
      · intro h; rcases List.mem_append.mp h with h | h
        · exact b3 h
        · exact i3 h
      · rw [b4, i4]

/-- C10: `escapeHtml` returns the empty string on a `null`/`undefined` or
empty argument (the `(unsafe || "")` coercion), and `sanitizeHtml` returns
the empty string on a `null`/`undefined` or empty argument (the
`if (!html) return ""` guard), for any platform parser; in the model both
functions are total, so neither throws nor returns `null`/`undefined`. -/
theorem C10_empty_and_null_inputs :
    escapeHtmlJS none = [] ∧ escapeHtmlJS (some []) = [] ∧
    ∀ parse : Str → List Node,
      sanitizeHtml parse none = [] ∧ sanitizeHtml parse (some []) = [] := by
  refine ⟨rfl, rfl, fun parse => ⟨rfl, by simp [sanitizeHtml]⟩⟩

/-- C2 (refuted): `formatValue` does not escape the text around detected
URLs; a markup character outside any URL is copied to the output verbatim.
On the input `<b>` the output is the unescaped `<b>` itself, containing a
literal `<`, whereas the claimed escape-everything-first behaviour would
produce `&lt;b&gt;` (which is what `escapeHtml` gives). -/
theorem C2_formatValue_leaves_text_unescaped :
    formatValue "<b>".toList = "<b>".toList ∧
    '<' ∈ formatValue "<b>".toList ∧
    formatValue "<b>".toList ≠ escapeHtml "<b>".toList := by
  have h : formatValue "<b>".toList = "<b>".toList := by
    simp [formatValue, matchUrlAt, matchUrlFrom, takeUrl, jsStartsWith,
      List.isPrefixOf, isJsSpace, jsWhitespace]
  refine ⟨h, ?_, ?_⟩
  · rw [h]; decide
  · rw [h]; decide

/-- C5 (refuted): the fallback chain is not first-match-wins between the
`enclosure` and `media:content` sources.  For an item with no inline image,
an `enclosure` of type `image/png` and url `E`, and a `media:content` with
`medium="image"` and url `M`, the code returns `M`: the `media:content`
loop runs unconditionally and overrides the already-matched enclosure. -/
theorem C5_counterexample_media_overrides_enclosure :
    resolveImage
      ⟨[], some (some "image/png".toList, some "E".toList),
        [(some "image".toList, some "M".toList)], []⟩
      = some "M".toList ∧ ("M".toList : Str) ≠ "E".toList := by
  constructor
  · simp [resolveImage, extractImage, findFirstImg, truthyS, findMediumImage, List.find?]
  · decide

/-- C5 (amended): the image of a feed entry is resolved as follows.  A
truthy first `img` in the description wins outright.  Otherwise the first
`media:content` with `medium="image"` wins whenever it carries a truthy
url — even against an `enclosure` with an image MIME type, which is
honoured only when no such `media:content` exists.  The first
`media:thumbnail` is used only when everything before left a falsy value,
and an entry with none of the four sources yields `null`. -/
theorem C5_image_fallback_amended (it : ItemData) :
    (truthyS (extractImage it.desc) = true → resolveImage it = extractImage it.desc) ∧
    (truthyS (extractImage it.desc) = false →
      ∀ m, findMediumImage it.mediaContents = some m →
        truthyS m.2 = true → resolveImage it = m.2) ∧
    (truthyS (extractImage it.desc) = false →
      findMediumImage it.mediaContents = none →
      ∀ ty u, it.enclosure = some (ty, u) →
        enclosureTypeIsImage ty = true → truthyS u = true →
        resolveImage it = u) ∧
    (extractImage it.desc = none → it.enclosure = none →
      findMediumImage it.mediaContents = none →
      ∀ u rest, it.mediaThumbnails = u :: rest → resolveImage it = u) ∧
    (extractImage it.desc = none → it.enclosure = none →
      it.mediaContents = [] → it.mediaThumbnails = [] → resolveImage it = none) := by
  refine ⟨?_, ?_, ?_, ?_, ?_⟩
  · intro h
    simp [resolveImage, h]
  · intro h m hm htr
    cases hthumb : it.mediaThumbnails with
    | nil => simp [resolveImage, h, hm, hthumb]
    | cons u rest => simp [resolveImage, h, hm, hthumb, htr]
  · intro h hm ty u he hty htr
    cases hthumb : it.mediaThumbnails with
    | nil => simp [resolveImage, h, hm, he, hty, hthumb]
    | cons u2 rest => simp [resolveImage, h, hm, he, hty, hthumb, htr]
  · intro h he hm u rest hthumb
    simp [resolveImage, h, he, hm, hthumb, truthyS]
  · intro h he hm ht
    simp [resolveImage, h, he, hm, ht, truthyS, findMediumImage]

/-- Witness for C5: an entry with no image source at all resolves to
`null`. -/
theorem C5_image_fallback_amended_witness :
    resolveImage ⟨[], none, [], []⟩ = none := by
  have h := (C5_image_fallback_amended ⟨[], none, [], []⟩).2.2.2.2
  exact h (by simp [extractImage, findFirstImg]) rfl rfl rfl

/-- C9: the text summary of an entry is the plain-text content of the parsed
description truncated to 150 characters, with the ellipsis appended if and
only if truncation occurred; its length is bounded by 153 (150 plus the
three-character ellipsis marker), and it depends only on the text content of
the description — markup in the description contributes nothing. -/
theorem C9_text_summary (d : List Node) :
    (textSummaryOf d).length ≤ 153 ∧
    ((textContent d).length ≤ 150 → textSummaryOf d = textContent d) ∧
    (150 < (textContent d).length →
      textSummaryOf d = (textContent d).take 150 ++ "...".toList) ∧
    (∀ d2, textContent d2 = textContent d → textSummaryOf d2 = textSummaryOf d) := by
  refine ⟨?_, ?_, ?_, ?_⟩
  · by_cases h : 150 < (textContent d).length
    all_goals simp [textSummaryOf, h]
  · intro h
    have hn : ¬ 150 < (textContent d).length := by omega
    simp [textSummaryOf, hn, List.take_of_length_le h]
  · intro h
    simp [textSummaryOf, h]
  · intro d2 h
    simp [textSummaryOf, h]

/-- Witness for C9: a short plain-text description is returned whole, with
no ellipsis. -/
theorem C9_text_summary_witness :
    textSummaryOf [Node.text "hello".toList] = textContent [Node.text "hello".toList] := by
  exact (C9_text_summary [Node.text "hello".toList]).2.1
    (by simp [textContent])

theorem track_components (stats : ReadingStats) (today : Int) :
    trackArticleRead stats today =
      { totalArticles := stats.totalArticles + 1,
        totalTime := stats.totalTime,
        streak := streakAfter stats today,
        lastReadDate := some today,
        history := historyAfter stats.history today } := by
  have hne : ¬ (today = today - 1) := by omega
  unfold trackArticleRead streakAfter historyAfter
  cases hl : stats.lastReadDate with
  | none =>
      cases hf : stats.history.find? (fun e => e.1 = today) <;> simp [hl, hf]
  | some last =>
      by_cases h1 : last = today - 1
      · cases hf : stats.history.find? (fun e => e.1 = today) <;> simp [hl, hf, h1]
      · by_cases h2 : last = today
        · subst h2
          cases hf : stats.history.find? (fun e => e.1 = last) <;>
            simp [hl, hf, h1]
        · cases hf : stats.history.find? (fun e => e.1 = today) <;> simp [hl, hf, h1, h2]

/-- C6: the streak transition of `trackArticleRead`.  After any read event
on day `today`, `lastReadDate` is `today`; the streak becomes 1 when
`lastReadDate` was unset, increments when it was yesterday (`today - 1`),
is unchanged when it was already today, and resets to 1 for any other
value. -/
theorem C6_streak_transition (stats : ReadingStats) (today : Int) :
    (trackArticleRead stats today).lastReadDate = some today ∧
    (stats.lastReadDate = none → (trackArticleRead stats today).streak = 1) ∧
    (stats.lastReadDate = some (today - 1) →
      (trackArticleRead stats today).streak = stats.streak + 1) ∧
    (stats.lastReadDate = some today →
      (trackArticleRead stats today).streak = stats.streak) ∧
    (∀ d, stats.lastReadDate = some d → d ≠ today - 1 → d ≠ today →
      (trackArticleRead stats today).streak = 1) := by
  rw [track_components]
  refine ⟨rfl, ?_, ?_, ?_, ?_⟩
  · intro h; simp [streakAfter, h]
  · intro h; simp [streakAfter, h]
  · intro h
    simp only [streakAfter, h]
    rw [if_neg (by omega : ¬ (today = today - 1))]
    simp
  · intro d h hd1 hd2
    simp [streakAfter, h, hd1, hd2]

/-- Witness for C6, the streak sequence of the spec: starting from the
baseline, a read on day 1 gives streak 1, a second read on day 1 leaves it
at 1, a read on day 2 raises it to 2, and a read on day 5 resets it to 1. -/
theorem C6_streak_transition_witness :
    (trackArticleRead baselineStats 1).streak = 1 ∧
    (trackArticleRead (trackArticleRead baselineStats 1) 1).streak = 1 ∧
    (trackArticleRead (trackArticleRead (trackArticleRead baselineStats 1) 1) 2).streak = 2 ∧
    (trackArticleRead (trackArticleRead (trackArticleRead
      (trackArticleRead baselineStats 1) 1) 2) 5).streak = 1 := by
  have h1 : (trackArticleRead baselineStats 1).streak = 1 :=
    (C6_streak_transition baselineStats 1).2.1 rfl
  have l1 : (trackArticleRead baselineStats 1).lastReadDate = some 1 :=
    (C6_streak_transition baselineStats 1).1
  have h2 : (trackArticleRead (trackArticleRead baselineStats 1) 1).streak
      = (trackArticleRead baselineStats 1).streak :=
    (C6_streak_transition (trackArticleRead baselineStats 1) 1).2.2.2.1 l1
  have l2 : (trackArticleRead (trackArticleRead baselineStats 1) 1).lastReadDate = some 1 :=
    (C6_streak_transition (trackArticleRead baselineStats 1) 1).1
  have h3 : (trackArticleRead (trackArticleRead (trackArticleRead baselineStats 1) 1) 2).streak
      = (trackArticleRead (trackArticleRead baselineStats 1) 1).streak + 1 :=
    (C6_streak_transition (trackArticleRead (trackArticleRead baselineStats 1) 1) 2).2.2.1
      (by rw [l2]; norm_num)
  have l3 : (trackArticleRead (trackArticleRead (trackArticleRead baselineStats 1) 1) 2).lastReadDate
      = some 2 :=
    (C6_streak_transition (trackArticleRead (trackArticleRead baselineStats 1) 1) 2).1
  have h4 : (trackArticleRead (trackArticleRead (trackArticleRead
      (trackArticleRead baselineStats 1) 1) 2) 5).streak = 1 :=
    (C6_streak_transition (trackArticleRead (trackArticleRead
      (trackArticleRead baselineStats 1) 1) 2) 5).2.2.2.2 2 l3 (by norm_num) (by norm_num)
  refine ⟨h1, by rw [h2, h1], by rw [h3, h2, h1]; norm_num, h4⟩

theorem incFirst_map_fst (h : List (Int × Int)) (d : Int) :
    (incFirst h d).map Prod.fst = h.map Prod.fst := by
  induction h with
  | nil => rfl
  | cons e t ih =>
      by_cases he : e.1 = d
      · simp [incFirst, he]
      · simp [incFirst, he, ih]

theorem incFirst_length (h : List (Int × Int)) (d : Int) :
    (incFirst h d).length = h.length := by
  induction h with
  | nil => rfl
  | cons e t ih =>
      by_cases he : e.1 = d
      · simp [incFirst, he]
      · simp [incFirst, he, ih]

theorem find_date_none_iff (h : List (Int × Int)) (today : Int) :
    h.find? (fun e => e.1 = today) = none ↔ today ∉ h.map Prod.fst := by
  rw [List.find?_eq_none]
  simp only [List.mem_map, decide_eq_true_eq, not_exists, not_and]

theorem historyAfter_mem (h : List (Int × Int)) (today : Int)
    (hm : today ∈ h.map Prod.fst) : historyAfter h today = incFirst h today := by
  unfold historyAfter
  cases hf : h.find? (fun e => e.1 = today) with
  | none => exact absurd ((find_date_none_iff h today).mp hf) (by simp [hm])
  | some e => rfl

theorem historyAfter_notMem (h : List (Int × Int)) (today : Int)
    (hm : today ∉ h.map Prod.fst) :
    historyAfter h today =
      (if 30 < h.length + 1 then (h ++ [(today, 1)]).tail else h ++ [(today, 1)]) := by
  unfold historyAfter
  rw [(find_date_none_iff h today).mpr hm]
  simp

/-- C7: `trackArticleRead` preserves the history invariant.  Starting from
a history with pairwise-distinct dates and at most 30 entries: the result
again has pairwise-distinct dates and at most 30 entries; a read on a day
already present leaves the date sequence unchanged (the count is bumped in
place, nothing is appended); a read on a new day appends `(today, 1)`, and
evicts the oldest (front) entry exactly when the history was already at 30
entries. -/
theorem C7_history_invariant (stats : ReadingStats) (today : Int)
    (hnodup : (stats.history.map Prod.fst).Nodup)
    (hlen : stats.history.length ≤ 30) :
    ((trackArticleRead stats today).history.map Prod.fst).Nodup ∧
    (trackArticleRead stats today).history.length ≤ 30 ∧
    (today ∈ stats.history.map Prod.fst →
      (trackArticleRead stats today).history.map Prod.fst = stats.history.map Prod.fst) ∧
    (today ∉ stats.history.map Prod.fst → stats.history.length < 30 →
      (trackArticleRead stats today).history = stats.history ++ [(today, 1)]) ∧
    (today ∉ stats.history.map Prod.fst → stats.history.length = 30 →
      (trackArticleRead stats today).history = stats.history.tail ++ [(today, 1)]) := by
  rw [track_components]
  by_cases hm : today ∈ stats.history.map Prod.fst
  · refine ⟨?_, ?_, ?_, ?_, ?_⟩
    · simp [historyAfter_mem _ _ hm, incFirst_map_fst, hnodup]
    · simp [historyAfter_mem _ _ hm, incFirst_length, hlen]
    · intro _; simp [historyAfter_mem _ _ hm, incFirst_map_fst]
    · intro habs; exact absurd hm habs
    · intro habs; exact absurd hm habs
  · rw [historyAfter_notMem _ _ hm]
    by_cases hl30 : stats.history.length = 30
    · have hcond : 30 < stats.history.length + 1 := by omega
      rw [if_pos hcond]
      have hne : stats.history ≠ [] := by
        intro habs; rw [habs] at hl30; simp at hl30
      have htail0 : ∀ l : List (Int × Int), l ≠ [] →
          (l ++ [(today, 1)]).tail = l.tail ++ [(today, 1)] := by
        intro l hl
        cases l with
        | nil => exact absurd rfl hl
        | cons e t => simp
      have htail := htail0 stats.history hne
      refine ⟨?_, ?_, ?_, ?_, ?_⟩
      · rw [htail]
        have hsub : (stats.history.tail ++ [(today, 1)]).map Prod.fst
            = (stats.history.map Prod.fst).tail ++ [today] := by
          simp [List.map_tail]
        rw [hsub]
        have hnd : ((stats.history.map Prod.fst).tail).Nodup :=
          hnodup.sublist (List.tail_sublist _)
        have hnm : today ∉ (stats.history.map Prod.fst).tail := by
          intro habs
          exact hm (List.mem_of_mem_tail habs)
        simp [List.nodup_append, hnd]
        intro hx
        exact hnm hx
      · rw [htail]
        have : stats.history.tail.length = 29 := by
          have := List.length_tail stats.history
          omega
        simp [this]
      · intro habs; exact absurd habs hm
      · intro _ hlt; omega
      · intro _ _
        rw [htail]
    · have hlt : stats.history.length < 30 := by omega
      have hcond : ¬ 30 < stats.history.length + 1 := by omega
      rw [if_neg hcond]
      refine ⟨?_, ?_, ?_, ?_, ?_⟩
      · have hsub : (stats.history ++ [(today, 1)]).map Prod.fst
            = stats.history.map Prod.fst ++ [today] := by simp
        rw [hsub]
        simp [List.nodup_append, hnodup]
        intro x hx
        exact hm (List.mem_map.mpr ⟨(today, x), hx, rfl⟩)
      · simp; omega
      · intro habs; exact absurd habs hm
      · intro _ _; rfl
      · intro _ h30; omega

/-- Witness for C7: a second read on a day already present in a one-entry
history keeps the dates unchanged and within bounds. -/
theorem C7_history_invariant_witness :
    ((trackArticleRead
        { totalArticles := 2, totalTime := 0, streak := 1,
          lastReadDate := some 1, history := [(1, 2)] } 1).history.map Prod.fst).Nodup ∧
    (trackArticleRead
        { totalArticles := 2, totalTime := 0, streak := 1,
          lastReadDate := some 1, history := [(1, 2)] } 1).history.map Prod.fst
      = [(1, 2)].map Prod.fst := by
  have h := C7_history_invariant
    { totalArticles := 2, totalTime := 0, streak := 1,
      lastReadDate := some 1, history := [(1, 2)] } 1
    (by decide) (by decide)
  exact ⟨h.1, h.2.2.1 (by decide)⟩

/-- C8 (refuted): a truthy malformed persisted stats value is not replaced
by the baseline, and the read-event update fails on it: for the empty
object, `getReadingStats` returns the empty object itself and
`trackArticleRead` throws a TypeError when it reaches
`stats.history.find`. -/
theorem C8_counterexample_malformed_stats :
    getReadingStatsJS (JSVal.vObj []) ≠ baselineJS ∧
    trackArticleReadJS (JSVal.vObj []) 5 = Except.error "TypeError".toList := by
  constructor
  · intro habs
    simp [getReadingStatsJS, jsTruthy, baselineJS] at habs
  · rfl

/-- C8 (amended): an absent — more generally, any falsy — persisted stats
value is treated as the zero-value baseline, and the read-event update then
succeeds, producing totalArticles 1, streak 1, lastReadDate today and a
single history entry; a truthy malformed value is returned as stored and
the update is not protected against it. -/
theorem C8_absent_stats_baseline (stored : JSVal) (today : Int)
    (hfalsy : jsTruthy stored = false) :
    getReadingStatsJS stored = baselineJS ∧
    trackArticleReadJS stored today =
      Except.ok (JSVal.vObj
        [("totalArticles".toList, .vNum 1), ("totalTime".toList, .vNum 0),
         ("streak".toList, .vNum 1), ("lastReadDate".toList, .vNum today),
         ("history".toList, .vArr
           [.vObj [("date".toList, .vNum today), ("count".toList, .vNum 1)]])]) := by
  have hg : getReadingStatsJS stored = baselineJS := by
    simp [getReadingStatsJS, hfalsy]
  refine ⟨hg, ?_⟩
  simp only [trackArticleReadJS, hg]
  rfl

/-- Witness for C8: the update from an absent (`null`) stats value on day 3
succeeds with the baseline-derived result. -/
theorem C8_absent_stats_baseline_witness :
    trackArticleReadJS JSVal.vNull 3 =
      Except.ok (JSVal.vObj
        [("totalArticles".toList, .vNum 1), ("totalTime".toList, .vNum 0),
         ("streak".toList, .vNum 1), ("lastReadDate".toList, .vNum 3),
         ("history".toList, .vArr
           [.vObj [("date".toList, .vNum 3), ("count".toList, .vNum 1)]])]) :=
  (C8_absent_stats_baseline JSVal.vNull 3 rfl).2

/-- Witness for C3: with the stand-in parser and the input `hi`, the
round-trip hypothesis holds by computation and a second sanitizer pass
changes nothing. -/
theorem C3_sanitizeHtml_idempotent_witness :
    sanitizeHtml parseStub (some (sanitizeHtml parseStub (some "hi".toList)))
      = sanitizeHtml parseStub (some "hi".toList) := by
  refine C3_sanitizeHtml_idempotent parseStub "hi".toList ?_
  simp [parseStub, sanitizeDoc, removeBad, stripAttrs, serializeNodes, serText, badTags]
